import Mathlib

/-!
Verification of the serde-plain crate: a shallow embedding of its plain-text
serializer (`src/ser.rs`), its error type (`src/error.rs`), its macro and
derive glue (`src/macros.rs`, `serde-plain-derive/src/lib.rs`), and a model of
its plain-text deserializer (declared as `mod de` in `src/lib.rs`; the file
`de.rs` itself is not part of the sources at hand, so the deserializer is
modelled from the specification).

Rust strings are modelled as lists of characters (for the ASCII data handled
here, byte indices and character indices agree).  The serde data model is the
inductive `Value`: one constructor per entry point of the serde `Serializer`
trait, which is exactly the interface `PlainSerializer` implements.  Target
types of deserialization are the inductive `TargetTy`.  Machine integers are
modelled as `Nat`/`Int` with explicit range bounds where they matter.
Floating point numbers are modelled as dyadic rationals together with the
IEEE special values; the standard library's `Display`/`parse` pair for floats
is external to the crate and is modelled by exact decimal rendering and
parsing, which preserves the round-trip contract of the real pair, together
with IEEE equality (`NaN` is not equal to itself).
-/

/-- Rust strings, modelled as lists of characters. -/
abbrev Str := List Char

/-- The decimal digit character for a digit value below ten. -/
def digitChar (d : Nat) : Char := Char.ofNat (48 + d)

/-- Recognizer for an ASCII decimal digit character. -/
def isDigitChar (c : Char) : Bool := 48 ≤ c.toNat && c.toNat ≤ 57

/-- Numeric value carried by a digit character. -/
def digitVal (c : Char) : Nat := c.toNat - 48

/-- Value of a digit string read left to right by the standard decimal
accumulator. -/
def digitsVal (l : Str) : Nat := l.foldl (fun a c => a * 10 + digitVal c) 0

/-- Decimal digit characters of `n`, most significant first.  `fuel` bounds
the recursion; callers pass a value above `n`. -/
def natDigitsAux : Nat → Nat → Str
  | 0, _ => []
  | fuel + 1, n =>
    if n < 10 then [digitChar n]
    else natDigitsAux fuel (n / 10) ++ [digitChar (n % 10)]

/-- Decimal rendering of a natural number, as Rust `Display` for the unsigned
integer types prints it (`v.to_string()` in `serialize_as_string!`). -/
def rustDisplayNat (n : Nat) : Str := natDigitsAux (n + 1) n

/-- Decimal rendering of an integer, as Rust `Display` for the signed integer
types prints it: a minus sign for negative values, then the digits. -/
def rustDisplayInt (i : Int) : Str :=
  if i < 0 then '-' :: rustDisplayNat i.natAbs else rustDisplayNat i.natAbs

/-- Modelled from the spec: the core of the standard textual parser used by
the missing `de.rs` for unsigned integers — one or more decimal digits. -/
def rustParseNatDigits (l : Str) : Option Nat :=
  if l = [] then none
  else if l.all isDigitChar then some (digitsVal l) else none

/-- Modelled from the spec: the standard textual parser for unsigned
integers, allowing one optional leading plus sign. -/
def rustParseUnsigned (s : Str) : Option Nat :=
  match s with
  | [] => none
  | c :: rest =>
    if c = '+' then rustParseNatDigits rest else rustParseNatDigits (c :: rest)

/-- Modelled from the spec: the standard textual parser for signed integers,
allowing one optional leading plus or minus sign. -/
def rustParseSigned (s : Str) : Option Int :=
  match s with
  | [] => none
  | c :: rest =>
    if c = '-' then (rustParseNatDigits rest).map (fun n => -(n : Int))
    else if c = '+' then (rustParseNatDigits rest).map (fun n => (n : Int))
    else (rustParseNatDigits (c :: rest)).map (fun n => (n : Int))

theorem digitVal_digitChar : ∀ d < 10, digitVal (digitChar d) = d := by decide

theorem isDigitChar_digitChar : ∀ d < 10, isDigitChar (digitChar d) = true := by
  decide

theorem foldl_digits_eq (a : Nat) (l : Str) :
    l.foldl (fun x c => x * 10 + digitVal c) a = a * 10 ^ l.length + digitsVal l := by
  induction l generalizing a with
  | nil => simp [digitsVal]
  | cons c t ih =>
    have h1 : (c :: t).foldl (fun x c => x * 10 + digitVal c) a
        = t.foldl (fun x c => x * 10 + digitVal c) (a * 10 + digitVal c) := rfl
    have h2 : digitsVal (c :: t)
        = t.foldl (fun x c => x * 10 + digitVal c) (digitVal c) := by
      simp [digitsVal]
    rw [h1, ih, h2, ih]
    simp [List.length_cons]
    ring

theorem digitsVal_append (l1 l2 : Str) :
    digitsVal (l1 ++ l2) = digitsVal l1 * 10 ^ l2.length + digitsVal l2 := by
  have : digitsVal (l1 ++ l2)
      = l2.foldl (fun x c => x * 10 + digitVal c) (digitsVal l1) := by
    simp [digitsVal, List.foldl_append]
  rw [this, foldl_digits_eq]

theorem natDigitsAux_spec :
    ∀ fuel n, n < fuel →
      natDigitsAux fuel n ≠ [] ∧
      (natDigitsAux fuel n).all isDigitChar = true ∧
      digitsVal (natDigitsAux fuel n) = n := by
  intro fuel
  induction fuel with
  | zero => intro n hn; omega
  | succ fuel ih =>
    intro n hn
    by_cases h : n < 10
    · refine ⟨by simp [natDigitsAux, h], ?_, ?_⟩
      · simp [natDigitsAux, h, isDigitChar_digitChar n h]
      · simp [natDigitsAux, h, digitsVal, digitVal_digitChar n h]
    · have hd : n / 10 < n := Nat.div_lt_self (by omega) (by omega)
      have hrec := ih (n / 10) (by omega)
      obtain ⟨hne, hall, hval⟩ := hrec
      have harm : natDigitsAux (fuel + 1) n
          = natDigitsAux fuel (n / 10) ++ [digitChar (n % 10)] := by
        simp [natDigitsAux, h]
      refine ⟨by simp [harm], ?_, ?_⟩
      · simp only [harm, List.all_append, hall, Bool.true_and, List.all_cons,
          List.all_nil, Bool.and_true]
        exact isDigitChar_digitChar (n % 10) (Nat.mod_lt n (by omega))
      · rw [harm, digitsVal_append, hval]
        have : digitsVal [digitChar (n % 10)] = n % 10 := by
          simp [digitsVal, digitVal_digitChar (n % 10) (Nat.mod_lt n (by omega))]
        rw [this]
        simp [List.length_cons]
        omega

theorem rustDisplayNat_ne_nil (n : Nat) : rustDisplayNat n ≠ [] :=
  (natDigitsAux_spec (n + 1) n (by omega)).1

theorem rustDisplayNat_all_digits (n : Nat) :
    (rustDisplayNat n).all isDigitChar = true :=
  (natDigitsAux_spec (n + 1) n (by omega)).2.1

theorem digitsVal_rustDisplayNat (n : Nat) : digitsVal (rustDisplayNat n) = n :=
  (natDigitsAux_spec (n + 1) n (by omega)).2.2

theorem rustParseNatDigits_rustDisplayNat (n : Nat) :
    rustParseNatDigits (rustDisplayNat n) = some n := by
  simp [rustParseNatDigits, rustDisplayNat_ne_nil n, rustDisplayNat_all_digits n,
    digitsVal_rustDisplayNat n]

theorem head_rustDisplayNat_digit (n : Nat) :
    ∃ c t, rustDisplayNat n = c :: t ∧ isDigitChar c = true := by
  obtain ⟨c, t, h⟩ := List.exists_cons_of_ne_nil (rustDisplayNat_ne_nil n)
  refine ⟨c, t, h, ?_⟩
  have := rustDisplayNat_all_digits n
  rw [h] at this
  simp at this
  exact this.1

theorem rustParseUnsigned_rustDisplayNat (n : Nat) :
    rustParseUnsigned (rustDisplayNat n) = some n := by
  obtain ⟨c, t, hct, hd⟩ := head_rustDisplayNat_digit n
  have hne : c ≠ '+' := by
    intro h
    rw [h] at hd
    exact absurd hd (by decide)
  rw [hct, rustParseUnsigned, if_neg hne, ← hct,
    rustParseNatDigits_rustDisplayNat n]

theorem rustParseSigned_rustDisplayInt (i : Int) :
    rustParseSigned (rustDisplayInt i) = some i := by
  by_cases h : i < 0
  · rw [rustDisplayInt, if_pos h, rustParseSigned, if_pos rfl,
      rustParseNatDigits_rustDisplayNat i.natAbs]
    simp only [Option.map_some', Option.bind_eq_bind, Option.some_bind, pure]
    simp only [Option.some.injEq]
    omega
  · rw [rustDisplayInt, if_neg h]
    obtain ⟨c, t, hct, hd⟩ := head_rustDisplayNat_digit i.natAbs
    have hne1 : c ≠ '-' := by
      intro hx; rw [hx] at hd; exact absurd hd (by decide)
    have hne2 : c ≠ '+' := by
      intro hx; rw [hx] at hd; exact absurd hd (by decide)
    rw [hct, rustParseSigned, if_neg hne1, if_neg hne2, ← hct,
      rustParseNatDigits_rustDisplayNat i.natAbs]
    simp only [Option.map_some', Option.bind_eq_bind, Option.some_bind, pure]
    simp only [Option.some.injEq]
    omega

/-- Model of a Rust floating point value (used for both `f32` and `f64`):
the IEEE special values plus finite dyadic values `m / 2 ^ k`.  Every finite
binary floating point number has this form. -/
inductive RFloat where
  | nan : RFloat
  | inf : RFloat
  | neginf : RFloat
  | finite (m : Int) (k : Nat) : RFloat
deriving DecidableEq

/-- Rust `PartialEq` on floats, i.e. IEEE equality: `NaN` compares unequal to
everything including itself; finite values compare by numeric value. -/
def rfEq : RFloat → RFloat → Bool
  | .nan, _ => false
  | _, .nan => false
  | .inf, .inf => true
  | .neginf, .neginf => true
  | .finite m k, .finite m2 k2 => decide (m * 2 ^ k2 = m2 * 2 ^ k)
  | _, _ => false

/-- Decimal digits of `a` padded with leading zeros to at least `minLen`
characters. -/
def padDigits (a minLen : Nat) : Str :=
  List.replicate (minLen - (rustDisplayNat a).length) '0' ++ rustDisplayNat a

/-- Digits-with-decimal-point body for the finite float `± a / 10 ^ k`:
the digits of `a`, with a decimal point placed `k` digits from the right
(no point at all for `k = 0`, matching Rust printing `3.0` as `3`). -/
def finiteBody (a k : Nat) : Str :=
  if k = 0 then padDigits a (k + 1)
  else
    (padDigits a (k + 1)).take ((padDigits a (k + 1)).length - k) ++
      '.' :: (padDigits a (k + 1)).drop ((padDigits a (k + 1)).length - k)

/-- Rendering of a Rust float, as the standard library `Display` prints it:
`NaN`, `inf`, `-inf` for the specials; for a finite `m / 2 ^ k` the exact
decimal expansion `± (|m| * 5 ^ k) / 10 ^ k`.  (The real library prints the
shortest decimal that parses back to the same float; the model prints the
exact decimal.  Both sides of the round-trip contract are preserved.) -/
def rustDisplayRFloat : RFloat → Str
  | .nan => "NaN".data
  | .inf => "inf".data
  | .neginf => "-inf".data
  | .finite m k =>
    (if m < 0 then ['-'] else []) ++ finiteBody (m.natAbs * 5 ^ k) k

/-- Split a string at its first decimal point, if any. -/
def splitOnDot : Str → Str × Option Str
  | [] => ([], none)
  | c :: rest =>
    if c = '.' then ([], some rest)
    else
      let p := splitOnDot rest
      (c :: p.1, p.2)

/-- Modelled from the spec: nonnegative decimal literal parsing for the
standard float parser used by the missing `de.rs`: digits with an optional
decimal point; the value is recovered exactly (the model covers the decimals
that denote a dyadic value, which includes everything the serializer emits). -/
def parseDecimal (s : Str) : Option RFloat :=
  match splitOnDot s with
  | (ip, none) => (rustParseNatDigits ip).map (fun a => RFloat.finite (Int.ofNat a) 0)
  | (ip, some fp) =>
    let ds := ip ++ fp
    if ds = [] then none
    else if ds.all isDigitChar then
      if digitsVal ds % 5 ^ fp.length = 0 then
        some (RFloat.finite (Int.ofNat (digitsVal ds / 5 ^ fp.length)) fp.length)
      else none
    else none

/-- Negation of a model float. -/
def negateRFloat : RFloat → RFloat
  | .nan => .nan
  | .inf => .neginf
  | .neginf => .inf
  | .finite m k => .finite (-m) k

/-- Modelled from the spec: signed decimal literal parsing. -/
def parseSignedDecimal (s : Str) : Option RFloat :=
  match s with
  | [] => none
  | c :: rest =>
    if c = '-' then (parseDecimal rest).map negateRFloat
    else if c = '+' then parseDecimal rest
    else parseDecimal (c :: rest)

/-- Modelled from the spec: the standard textual parser for floats — a signed
decimal literal, or one of the special spellings `NaN`, `inf`, `-inf`. -/
def rustParseRFloat (s : Str) : Option RFloat :=
  match parseSignedDecimal s with
  | some x => some x
  | none =>
    if s = "NaN".data then some RFloat.nan
    else if s = "inf".data then some RFloat.inf
    else if s = "-inf".data then some RFloat.neginf
    else none

theorem digitsVal_replicate_zero (z : Nat) :
    digitsVal (List.replicate z '0') = 0 := by
  induction z with
  | zero => simp [digitsVal]
  | succ z ih =>
    have : List.replicate (z + 1) '0' = '0' :: List.replicate z '0' := rfl
    rw [this]
    have h : digitsVal ('0' :: List.replicate z '0')
        = (List.replicate z '0').foldl (fun a c => a * 10 + digitVal c)
            (0 * 10 + digitVal '0') := rfl
    rw [h]
    have : (0 : Nat) * 10 + digitVal '0' = 0 := by decide
    rw [this]
    exact ih

theorem padDigits_all_digits (a minLen : Nat) :
    (padDigits a minLen).all isDigitChar = true := by
  rw [padDigits, List.all_append, Bool.and_eq_true]
  refine And.intro ?_ (rustDisplayNat_all_digits a)
  rw [List.all_eq_true]
  intro c hc
  rw [List.eq_of_mem_replicate hc]
  decide

theorem padDigits_length (a minLen : Nat) :
    minLen ≤ (padDigits a minLen).length := by
  rw [padDigits, List.length_append, List.length_replicate]
  omega

theorem padDigits_ne_nil (a minLen : Nat) : padDigits a minLen ≠ [] := by
  rw [padDigits]
  intro h
  rw [List.append_eq_nil] at h
  exact rustDisplayNat_ne_nil a h.2

theorem digitsVal_padDigits (a minLen : Nat) :
    digitsVal (padDigits a minLen) = a := by
  rw [padDigits, digitsVal_append, digitsVal_replicate_zero,
    digitsVal_rustDisplayNat]
  ring

theorem isDigitChar_ne_dot {c : Char} (h : isDigitChar c = true) : c ≠ '.' := by
  intro hx
  rw [hx] at h
  exact absurd h (by decide)

theorem isDigitChar_ne_minus {c : Char} (h : isDigitChar c = true) : c ≠ '-' := by
  intro hx
  rw [hx] at h
  exact absurd h (by decide)

theorem isDigitChar_ne_plus {c : Char} (h : isDigitChar c = true) : c ≠ '+' := by
  intro hx
  rw [hx] at h
  exact absurd h (by decide)

theorem splitOnDot_all_digits (l : Str) (h : l.all isDigitChar = true) :
    splitOnDot l = (l, none) := by
  induction l with
  | nil => rfl
  | cons c t ih =>
    rw [List.all_cons, Bool.and_eq_true] at h
    rw [splitOnDot, if_neg (isDigitChar_ne_dot h.1)]
    simp [ih h.2]

theorem splitOnDot_append (ip fp : Str) (h : ip.all isDigitChar = true) :
    splitOnDot (ip ++ '.' :: fp) = (ip, some fp) := by
  induction ip with
  | nil => simp [splitOnDot]
  | cons c t ih =>
    rw [List.all_cons, Bool.and_eq_true] at h
    rw [List.cons_append, splitOnDot, if_neg (isDigitChar_ne_dot h.1)]
    simp [ih h.2]

theorem finiteBody_head_digit (a k : Nat) :
    ∃ c t, finiteBody a k = c :: t ∧ isDigitChar c = true := by
  by_cases hk : k = 0
  · subst hk
    rw [finiteBody, if_pos rfl]
    obtain ⟨c, t, h⟩ := List.exists_cons_of_ne_nil (padDigits_ne_nil a 1)
    refine ⟨c, t, h, ?_⟩
    have := padDigits_all_digits a 1
    rw [h, List.all_cons, Bool.and_eq_true] at this
    exact this.1
  · rw [finiteBody, if_neg hk]
    have hlen : k + 1 ≤ (padDigits a (k + 1)).length := padDigits_length a (k + 1)
    have htk : ((padDigits a (k + 1)).take ((padDigits a (k + 1)).length - k)).length
        = (padDigits a (k + 1)).length - k := by
      rw [List.length_take]
      omega
    have hne : (padDigits a (k + 1)).take ((padDigits a (k + 1)).length - k) ≠ [] := by
      intro hx
      rw [hx] at htk
      simp at htk
      omega
    obtain ⟨c, t, h⟩ := List.exists_cons_of_ne_nil hne
    refine ⟨c, t ++ '.' :: (padDigits a (k + 1)).drop ((padDigits a (k + 1)).length - k), ?_, ?_⟩
    · rw [h, List.cons_append]
    · have hmem : c ∈ (padDigits a (k + 1)).take ((padDigits a (k + 1)).length - k) := by
        rw [h]
        exact List.mem_cons_self c t
      have hall := padDigits_all_digits a (k + 1)
      rw [List.all_eq_true] at hall
      exact hall c (List.take_subset _ _ hmem)

theorem parseDecimal_finiteBody (a k : Nat) (h : a % 5 ^ k = 0) :
    parseDecimal (finiteBody a k) = some (RFloat.finite (Int.ofNat (a / 5 ^ k)) k) := by
  by_cases hk : k = 0
  · subst hk
    have hs := splitOnDot_all_digits _ (padDigits_all_digits a 1)
    rw [finiteBody, if_pos rfl, parseDecimal, hs]
    simp [rustParseNatDigits, padDigits_ne_nil a 1,
      padDigits_all_digits a 1, digitsVal_padDigits]
  · have hlen : k + 1 ≤ (padDigits a (k + 1)).length := padDigits_length a (k + 1)
    have hip : ((padDigits a (k + 1)).take ((padDigits a (k + 1)).length - k)).all
        isDigitChar = true := by
      have hall := padDigits_all_digits a (k + 1)
      rw [List.all_eq_true] at hall ⊢
      exact fun c hc => hall c (List.take_subset _ _ hc)
    have hs := splitOnDot_append _
      ((padDigits a (k + 1)).drop ((padDigits a (k + 1)).length - k)) hip
    have hlenfp : ((padDigits a (k + 1)).drop ((padDigits a (k + 1)).length - k)).length
        = k := by
      rw [List.length_drop]
      omega
    rw [finiteBody, if_neg hk, parseDecimal, hs]
    simp only [List.take_append_drop, hlenfp]
    rw [if_neg (padDigits_ne_nil a (k + 1)),
      if_pos (padDigits_all_digits a (k + 1)), digitsVal_padDigits, if_pos h]

theorem parseSignedDecimal_display_finite (m : Int) (k : Nat) :
    parseSignedDecimal (rustDisplayRFloat (RFloat.finite m k)) =
      some (RFloat.finite m k) := by
  have hmod : m.natAbs * 5 ^ k % 5 ^ k = 0 := Nat.mul_mod_left _ _
  have hdiv : m.natAbs * 5 ^ k / 5 ^ k = m.natAbs :=
    Nat.mul_div_cancel _ (pow_pos (by norm_num) k)
  by_cases hm : m < 0
  · rw [rustDisplayRFloat, if_pos hm, List.singleton_append, parseSignedDecimal,
      if_pos rfl, parseDecimal_finiteBody _ _ hmod, hdiv]
    simp only [Option.map_some', negateRFloat]
    have : -(Int.ofNat m.natAbs) = m := by
      rw [Int.ofNat_eq_natCast]
      omega
    rw [this]
  · rw [rustDisplayRFloat, if_neg hm, List.nil_append]
    obtain ⟨c, t, hct, hd⟩ := finiteBody_head_digit (m.natAbs * 5 ^ k) k
    rw [hct, parseSignedDecimal, if_neg (isDigitChar_ne_minus hd),
      if_neg (isDigitChar_ne_plus hd), ← hct,
      parseDecimal_finiteBody _ _ hmod, hdiv]
    have : Int.ofNat m.natAbs = m := by
      rw [Int.ofNat_eq_natCast]
      omega
    rw [this]

theorem rustParseRFloat_display_finite (m : Int) (k : Nat) :
    rustParseRFloat (rustDisplayRFloat (RFloat.finite m k)) =
      some (RFloat.finite m k) := by
  rw [rustParseRFloat, parseSignedDecimal_display_finite]

theorem rustParseRFloat_display (x : RFloat) (hx : x ≠ RFloat.nan) :
    rustParseRFloat (rustDisplayRFloat x) = some x := by
  cases x with
  | nan => exact absurd rfl hx
  | inf => decide
  | neginf => decide
  | finite m k => exact rustParseRFloat_display_finite m k

theorem rfEq_refl_of_ne_nan (x : RFloat) (hx : x ≠ RFloat.nan) :
    rfEq x x = true := by
  cases x with
  | nan => exact absurd rfl hx
  | inf => rfl
  | neginf => rfl
  | finite m k => simp [rfEq]

/-- The crate's error type, from `src/error.rs`. -/
inductive Error where
  | ImpossibleSerialization : Error
  | Message (msg : Str) : Error
deriving DecidableEq

/-- `Error::description` from the `std::error::Error` impl in `src/error.rs`. -/
def Error.description : Error → Str
  | .ImpossibleSerialization => "value cannot be serialized to a plain value".data
  | .Message msg => msg

/-- The `fmt::Display` impl for `Error` in `src/error.rs`: the fixed prefix
followed by the description. -/
def Error.display (e : Error) : Str :=
  "plain serialization error: ".data ++ e.description

/-- The serde data model as offered to a `Serializer`: one constructor per
entry point of the `Serializer` trait, which is exactly the interface
`PlainSerializer` in `src/ser.rs` implements.  Deserialization results are
expressed with the same type. -/
inductive Value where
  | vBool (b : Bool)
  | vU8 (n : Nat)
  | vU16 (n : Nat)
  | vU32 (n : Nat)
  | vU64 (n : Nat)
  | vI8 (i : Int)
  | vI16 (i : Int)
  | vI32 (i : Int)
  | vI64 (i : Int)
  | vF32 (x : RFloat)
  | vF64 (x : RFloat)
  | vChar (c : Char)
  | vStr (s : Str)
  | vBytes (bs : List Nat)
  | vUnit
  | vUnitStruct (name : Str)
  | vUnitVariant (name : Str) (variantIndex : Nat) (variant : Str)
  | vNewtypeStruct (name : Str) (value : Value)
  | vNewtypeVariant (name : Str) (variantIndex : Nat) (variant : Str) (value : Value)
  | vNone
  | vSome (value : Value)
  | vSeq (items : List Value)
  | vTuple (items : List Value)
  | vTupleStruct (name : Str) (items : List Value)
  | vTupleVariant (name : Str) (variantIndex : Nat) (variant : Str) (items : List Value)
  | vMap (entries : List (Value × Value))
  | vStruct (name : Str) (fields : List (Str × Value))
  | vStructVariant (name : Str) (variantIndex : Nat) (variant : Str) (fields : List (Str × Value))

/-- `to_string` from `src/ser.rs`: `value.serialize(PlainSerializer)`.  Each
arm is the corresponding method of `impl Serializer for PlainSerializer`.
The compound shapes use the `Impossible` associated types, so they fail
before any element is serialized and an error carries no partial output. -/
def to_string : Value → Except Error Str
  | .vBool b => .ok (if b then "true".data else "false".data)
  | .vU8 n => .ok (rustDisplayNat n)
  | .vU16 n => .ok (rustDisplayNat n)
  | .vU32 n => .ok (rustDisplayNat n)
  | .vU64 n => .ok (rustDisplayNat n)
  | .vI8 i => .ok (rustDisplayInt i)
  | .vI16 i => .ok (rustDisplayInt i)
  | .vI32 i => .ok (rustDisplayInt i)
  | .vI64 i => .ok (rustDisplayInt i)
  | .vF32 x => .ok (rustDisplayRFloat x)
  | .vF64 x => .ok (rustDisplayRFloat x)
  | .vChar c => .ok [c]
  | .vStr s => .ok s
  | .vBytes _ => .error .ImpossibleSerialization
  | .vUnit => .ok []
  | .vUnitStruct _ => .error .ImpossibleSerialization
  | .vUnitVariant _ _ variant => .ok variant
  | .vNewtypeStruct _ value => to_string value
  | .vNewtypeVariant _ _ _ _ => .error .ImpossibleSerialization
  | .vNone => .ok []
  | .vSome value => to_string value
  | .vSeq _ => .error .ImpossibleSerialization
  | .vTuple _ => .error .ImpossibleSerialization
  | .vTupleStruct _ _ => .error .ImpossibleSerialization
  | .vTupleVariant _ _ _ _ => .error .ImpossibleSerialization
  | .vMap _ => .error .ImpossibleSerialization
  | .vStruct _ _ => .error .ImpossibleSerialization
  | .vStructVariant _ _ _ _ => .error .ImpossibleSerialization

/-- The shape of a deserialization target type, as its `Deserialize` impl
drives the deserializer: primitive visitors, unit, optionals, newtype
wrappers, and enums of unit variants, the latter carrying the serialization
names of the variants in declaration order (after any rename policy the
structured framework applied). -/
inductive TargetTy where
  | tBool
  | tU8
  | tU16
  | tU32
  | tU64
  | tI8
  | tI16
  | tI32
  | tI64
  | tF32
  | tF64
  | tChar
  | tStr
  | tUnit
  | tOption (inner : TargetTy)
  | tNewtype (name : Str) (inner : TargetTy)
  | tEnum (name : Str) (variants : List Str)

/-- The backtick character used by serde messages to quote names. -/
def tick : Char := '\x60'

/-- A name wrapped in backticks. -/
def quoted (n : Str) : Str := tick :: (n ++ [tick])

/-- Modelled from the spec: the tail of a comma-joined expected-variants list
with a final `or` before the last name. -/
def commaOrList : List Str → Str
  | [] => []
  | [a] => ", or ".data ++ quoted a
  | a :: rest => ", ".data ++ quoted a ++ commaOrList rest

/-- Modelled from the spec: rendering of the expected-variants list in the
unknown-variant message: one name alone, two names joined by `or`, and for
more than two a comma-joined list ending in `or` and the last name. -/
def expectedVariants : List Str → Str
  | [] => "there are no variants".data
  | [a] => quoted a
  | [a, b] => quoted a ++ " or ".data ++ quoted b
  | a :: rest => quoted a ++ commaOrList rest

/-- Modelled from the spec: the unknown-variant failure message, a
compatibility contract for consumers that match on it. -/
def unknown_variant_msg (input : Str) (names : List Str) : Str :=
  "unknown variant ".data ++ quoted input ++ ", expected ".data ++
    expectedVariants names

/-- Modelled from the spec: the invalid-value message for primitive parse
failures, naming the offending text and the expected type. -/
def invalid_value_msg (text expected : Str) : Str :=
  "invalid value ".data ++ quoted text ++ ", expected ".data ++ expected

/-- Index of the first variant name equal to the input, scanning the
serialization names in declaration order. -/
def findVariant (names : List Str) (s : Str) : Option Nat :=
  match names with
  | [] => none
  | n :: rest => if n = s then some 0 else (findVariant rest s).map (· + 1)

/-- Modelled from the spec: `from_str` of the missing `de.rs`.  The
deserializer holds the whole input string and interprets it as exactly the
requested shape: primitives through the standard textual parsers, strings
passed through unmodified, unit and absent-optional exactly for the empty
string, present-optionals and newtype wrappers recursively on the same
string, and unit-variant enums by case-sensitive lookup among the variant
names with the contractual unknown-variant message on no match. -/
def from_str : TargetTy → Str → Except Error Value
  | .tBool, s =>
    if s = "true".data then .ok (.vBool true)
    else if s = "false".data then .ok (.vBool false)
    else .error (.Message (invalid_value_msg s "a boolean".data))
  | .tU8, s =>
    match rustParseUnsigned s with
    | some n =>
      if n < 2 ^ 8 then .ok (.vU8 n)
      else .error (.Message (invalid_value_msg s "u8".data))
    | none => .error (.Message (invalid_value_msg s "u8".data))
  | .tU16, s =>
    match rustParseUnsigned s with
    | some n =>
      if n < 2 ^ 16 then .ok (.vU16 n)
      else .error (.Message (invalid_value_msg s "u16".data))
    | none => .error (.Message (invalid_value_msg s "u16".data))
  | .tU32, s =>
    match rustParseUnsigned s with
    | some n =>
      if n < 2 ^ 32 then .ok (.vU32 n)
      else .error (.Message (invalid_value_msg s "u32".data))
    | none => .error (.Message (invalid_value_msg s "u32".data))
  | .tU64, s =>
    match rustParseUnsigned s with
    | some n =>
      if n < 2 ^ 64 then .ok (.vU64 n)
      else .error (.Message (invalid_value_msg s "u64".data))
    | none => .error (.Message (invalid_value_msg s "u64".data))
  | .tI8, s =>
    match rustParseSigned s with
    | some i =>
      if -(2 ^ 7) ≤ i ∧ i < 2 ^ 7 then .ok (.vI8 i)
      else .error (.Message (invalid_value_msg s "i8".data))
    | none => .error (.Message (invalid_value_msg s "i8".data))
  | .tI16, s =>
    match rustParseSigned s with
    | some i =>
      if -(2 ^ 15) ≤ i ∧ i < 2 ^ 15 then .ok (.vI16 i)
      else .error (.Message (invalid_value_msg s "i16".data))
    | none => .error (.Message (invalid_value_msg s "i16".data))
  | .tI32, s =>
    match rustParseSigned s with
    | some i =>
      if -(2 ^ 31) ≤ i ∧ i < 2 ^ 31 then .ok (.vI32 i)
      else .error (.Message (invalid_value_msg s "i32".data))
    | none => .error (.Message (invalid_value_msg s "i32".data))
  | .tI64, s =>
    match rustParseSigned s with
    | some i =>
      if -(2 ^ 63) ≤ i ∧ i < 2 ^ 63 then .ok (.vI64 i)
      else .error (.Message (invalid_value_msg s "i64".data))
    | none => .error (.Message (invalid_value_msg s "i64".data))
  | .tF32, s =>
    match rustParseRFloat s with
    | some x => .ok (.vF32 x)
    | none => .error (.Message (invalid_value_msg s "f32".data))
  | .tF64, s =>
    match rustParseRFloat s with
    | some x => .ok (.vF64 x)
    | none => .error (.Message (invalid_value_msg s "f64".data))
  | .tChar, s =>
    match s with
    | [c] => .ok (.vChar c)
    | _ => .error (.Message (invalid_value_msg s "a character".data))
  | .tStr, s => .ok (.vStr s)
  | .tUnit, s =>
    if s = [] then .ok .vUnit
    else .error (.Message (invalid_value_msg s "unit".data))
  | .tOption inner, s =>
    if s = [] then .ok .vNone else (from_str inner s).map .vSome
  | .tNewtype name inner, s => (from_str inner s).map (.vNewtypeStruct name)
  | .tEnum name variants, s =>
    match findVariant variants s with
    | some i => .ok (.vUnitVariant name i (variants.getD i []))
    | none => .error (.Message (unknown_variant_msg s variants))

/-- The render path generated by `forward_display_to_serde` in
`src/macros.rs` and by the `SerializeDisplay` derive in
`serde-plain-derive/src/lib.rs`: `Display::fmt` writes
`to_string(self).unwrap()`.  A `none` result models the panic taken when
`to_string` returns an error; `some` is the string actually written. -/
def displayViaSerde (v : Value) : Option Str := (to_string v).toOption

/-- Whether `pat` is an initial segment of `l`. -/
def prefixMatches : Str → Str → Bool
  | [], _ => true
  | _ :: _, [] => false
  | p :: ps, c :: cs => p == c && prefixMatches ps cs

/-- Index of the first occurrence of `pat` in `l`, as Rust `str::find`
computes it (the strings involved are ASCII, so byte and character indices
agree). -/
def findSubstr : Str → Str → Option Nat
  | [], pat => if prefixMatches pat [] then some 0 else none
  | c :: rest, pat =>
    if prefixMatches pat (c :: rest) then some 0
    else (findSubstr rest pat).map (· + 1)

/-- Whether `pat` occurs in `l`, as Rust `str::contains`. -/
def containsSubstr (l pat : Str) : Bool := (findSubstr l pat).isSome

/-- ASCII whitespace recognizer for the `str::trim` model. -/
def isWhitespaceChar (c : Char) : Bool :=
  c = ' ' || c = '\t' || c = '\n' || c = '\r'

/-- Model of Rust `str::trim`: whitespace removed from both ends. -/
def trimChars (l : Str) : Str :=
  ((l.dropWhile isWhitespaceChar).reverse.dropWhile isWhitespaceChar).reverse

/-- `get_ident` from `serde-plain-derive/src/lib.rs`: scan the textual form
of the derive input for `" pub enum"` (pattern length 9) and, failing that,
`" enum"` (pattern length 5); unwrap the found index and add the length;
find the next opening brace after that point and trim the slice in between.
A `none` result models a panic of one of the two `unwrap()` calls. -/
def get_ident (input : Str) : Option Str :=
  let found :=
    match findSubstr input " pub enum".data with
    | some i => some (i + 9)
    | none =>
      match findSubstr input " enum".data with
      | some i => some (i + 5)
      | none => none
  match found with
  | none => none
  | some start =>
    match findSubstr (input.drop start) ['\x7b'] with
    | none => none
    | some j => some (trimChars ((input.drop start).take j))

/-- Successful round trip through the crate: serializing `v` yields a string
and deserializing that string at target shape `t` yields `v` back. -/
def RoundTrips (t : TargetTy) (v : Value) : Prop :=
  ∃ s, to_string v = Except.ok s ∧ from_str t s = Except.ok v

theorem roundtrip_bool (b : Bool) : RoundTrips TargetTy.tBool (Value.vBool b) := by
  cases b
  · exact ⟨"false".data, rfl, rfl⟩
  · exact ⟨"true".data, rfl, rfl⟩

theorem roundtrip_u8 (n : Nat) (h : n < 2 ^ 8) :
    RoundTrips TargetTy.tU8 (Value.vU8 n) := by
  refine ⟨rustDisplayNat n, rfl, ?_⟩
  simp only [from_str, rustParseUnsigned_rustDisplayNat n]
  rw [if_pos h]

theorem roundtrip_u16 (n : Nat) (h : n < 2 ^ 16) :
    RoundTrips TargetTy.tU16 (Value.vU16 n) := by
  refine ⟨rustDisplayNat n, rfl, ?_⟩
  simp only [from_str, rustParseUnsigned_rustDisplayNat n]
  rw [if_pos h]

theorem roundtrip_u32 (n : Nat) (h : n < 2 ^ 32) :
    RoundTrips TargetTy.tU32 (Value.vU32 n) := by
  refine ⟨rustDisplayNat n, rfl, ?_⟩
  simp only [from_str, rustParseUnsigned_rustDisplayNat n]
  rw [if_pos h]

theorem roundtrip_u64 (n : Nat) (h : n < 2 ^ 64) :
    RoundTrips TargetTy.tU64 (Value.vU64 n) := by
  refine ⟨rustDisplayNat n, rfl, ?_⟩
  simp only [from_str, rustParseUnsigned_rustDisplayNat n]
  rw [if_pos h]

theorem roundtrip_i8 (i : Int) (h1 : -(2 ^ 7) ≤ i) (h2 : i < 2 ^ 7) :
    RoundTrips TargetTy.tI8 (Value.vI8 i) := by
  refine ⟨rustDisplayInt i, rfl, ?_⟩
  simp only [from_str, rustParseSigned_rustDisplayInt i]
  rw [if_pos ⟨h1, h2⟩]

theorem roundtrip_i16 (i : Int) (h1 : -(2 ^ 15) ≤ i) (h2 : i < 2 ^ 15) :
    RoundTrips TargetTy.tI16 (Value.vI16 i) := by
  refine ⟨rustDisplayInt i, rfl, ?_⟩
  simp only [from_str, rustParseSigned_rustDisplayInt i]
  rw [if_pos ⟨h1, h2⟩]

theorem roundtrip_i32 (i : Int) (h1 : -(2 ^ 31) ≤ i) (h2 : i < 2 ^ 31) :
    RoundTrips TargetTy.tI32 (Value.vI32 i) := by
  refine ⟨rustDisplayInt i, rfl, ?_⟩
  simp only [from_str, rustParseSigned_rustDisplayInt i]
  rw [if_pos ⟨h1, h2⟩]

theorem roundtrip_i64 (i : Int) (h1 : -(2 ^ 63) ≤ i) (h2 : i < 2 ^ 63) :
    RoundTrips TargetTy.tI64 (Value.vI64 i) := by
  refine ⟨rustDisplayInt i, rfl, ?_⟩
  simp only [from_str, rustParseSigned_rustDisplayInt i]
  rw [if_pos ⟨h1, h2⟩]

theorem from_str_tF32_display (x : RFloat) (hx : x ≠ RFloat.nan) :
    from_str TargetTy.tF32 (rustDisplayRFloat x) = Except.ok (Value.vF32 x) := by
  simp only [from_str, rustParseRFloat_display x hx]

theorem from_str_tF64_display (x : RFloat) (hx : x ≠ RFloat.nan) :
    from_str TargetTy.tF64 (rustDisplayRFloat x) = Except.ok (Value.vF64 x) := by
  simp only [from_str, rustParseRFloat_display x hx]

theorem findVariant_get (names : List Str) (hnd : names.Nodup) (i : Nat)
    (hi : i < names.length) :
    findVariant names (names.get ⟨i, hi⟩) = some i := by
  induction names generalizing i with
  | nil => simp at hi
  | cons n rest ih =>
    rw [List.nodup_cons] at hnd
    cases i with
    | zero => simp [findVariant]
    | succ j =>
      have hj : j < rest.length := by
        simp only [List.length_cons] at hi
        omega
      have hget : (n :: rest).get ⟨j + 1, hi⟩ = rest.get ⟨j, hj⟩ := rfl
      have hne : ¬ n = rest.get ⟨j, hj⟩ := by
        intro hx
        exact hnd.1 (hx ▸ List.get_mem rest j hj)
      rw [hget, findVariant, if_neg hne, ih hnd.2 j hj]
      rfl

theorem findVariant_eq_none (names : List Str) (s : Str) (h : s ∉ names) :
    findVariant names s = none := by
  induction names with
  | nil => rfl
  | cons n rest ih =>
    rw [List.mem_cons, not_or] at h
    have hne : ¬ n = s := fun hx => h.1 hx.symm
    rw [findVariant, if_neg hne, ih h.2]
    rfl

theorem from_str_enum_get (enumName : Str) (names : List Str) (hnd : names.Nodup)
    (i : Nat) (hi : i < names.length) :
    from_str (TargetTy.tEnum enumName names) (names.get ⟨i, hi⟩)
      = Except.ok (Value.vUnitVariant enumName i (names.get ⟨i, hi⟩)) := by
  simp only [from_str, findVariant_get names hnd i hi]
  rw [List.getD_eq_getElem names [] hi, List.get_eq_getElem]

/-- C1: for every enum type whose variants all carry no payload, under any
case-rename policy applied by the structured framework (modelled as an
arbitrary list of pairwise distinct rendered variant names, in declaration
order) and for every variant of that type, `from_str(to_string(variant))`
succeeds and returns a value equal to the variant.  Serialization is the real
`serialize_unit_variant` of `src/ser.rs`; deserialization is the
spec-modelled enum lookup. -/
theorem c1_unit_enum_roundtrip (enumName : Str) (names : List Str)
    (hnd : names.Nodup) (i : Nat) (hi : i < names.length) :
    RoundTrips (TargetTy.tEnum enumName names)
      (Value.vUnitVariant enumName i (names.get ⟨i, hi⟩)) :=
  ⟨names.get ⟨i, hi⟩, rfl, from_str_enum_get enumName names hnd i hi⟩

theorem c1_unit_enum_roundtrip_witness :
    ["foo_bar_baz".data, "blah_blah".data].Nodup ∧
    (0 : Nat) < ["foo_bar_baz".data, "blah_blah".data].length ∧
    RoundTrips (TargetTy.tEnum "Test".data ["foo_bar_baz".data, "blah_blah".data])
      (Value.vUnitVariant "Test".data 0 "foo_bar_baz".data) :=
  ⟨by decide, by decide,
    c1_unit_enum_roundtrip "Test".data ["foo_bar_baz".data, "blah_blah".data]
      (by decide) 0 (by decide)⟩

/-- C2: every rejected shape — byte arrays, unit structs, newtype enum
variants, sequences, tuples, tuple structs, tuple enum variants, maps,
structs with named fields, struct enum variants — makes `to_string` return
`Err(Error::ImpossibleSerialization)` whatever the payload; the error carries
no string, so no partial output is produced (in `src/ser.rs` the compound
shapes use the `Impossible` associated types and fail before any element is
serialized). -/
theorem c2_rejected_shapes (bs : List Nat) (name variant : Str) (idx : Nat)
    (v : Value) (items : List Value) (entries : List (Value × Value))
    (fields : List (Str × Value)) :
    to_string (Value.vBytes bs) = Except.error Error.ImpossibleSerialization ∧
    to_string (Value.vUnitStruct name) = Except.error Error.ImpossibleSerialization ∧
    to_string (Value.vNewtypeVariant name idx variant v)
      = Except.error Error.ImpossibleSerialization ∧
    to_string (Value.vSeq items) = Except.error Error.ImpossibleSerialization ∧
    to_string (Value.vTuple items) = Except.error Error.ImpossibleSerialization ∧
    to_string (Value.vTupleStruct name items)
      = Except.error Error.ImpossibleSerialization ∧
    to_string (Value.vTupleVariant name idx variant items)
      = Except.error Error.ImpossibleSerialization ∧
    to_string (Value.vMap entries) = Except.error Error.ImpossibleSerialization ∧
    to_string (Value.vStruct name fields)
      = Except.error Error.ImpossibleSerialization ∧
    to_string (Value.vStructVariant name idx variant fields)
      = Except.error Error.ImpossibleSerialization :=
  ⟨rfl, rfl, rfl, rfl, rfl, rfl, rfl, rfl, rfl, rfl⟩

/-- C3 as stated fails on the code at the floating point value NaN: the round
trip succeeds and returns NaN, but under the language's float equality
(IEEE `==`, the equality `assert_eq!` would use) NaN is not equal to itself,
so the result is not equal to the input value. -/
theorem c3_nan_counterexample :
    to_string (Value.vF64 RFloat.nan) = Except.ok "NaN".data ∧
    from_str TargetTy.tF64 "NaN".data = Except.ok (Value.vF64 RFloat.nan) ∧
    rfEq RFloat.nan RFloat.nan = false :=
  ⟨rfl, rfl, rfl⟩

/-- C3 amended: for every bool value, every in-range value of each unsigned
and signed integer width, and every non-NaN value of either floating point
width, `from_str::<T>(to_string(&v))` succeeds and returns a value equal to
`v` (float equality read as the language's `==`). -/
theorem c3_numeric_roundtrip :
    (∀ b : Bool, RoundTrips TargetTy.tBool (Value.vBool b)) ∧
    (∀ n : Nat, n < 2 ^ 8 → RoundTrips TargetTy.tU8 (Value.vU8 n)) ∧
    (∀ n : Nat, n < 2 ^ 16 → RoundTrips TargetTy.tU16 (Value.vU16 n)) ∧
    (∀ n : Nat, n < 2 ^ 32 → RoundTrips TargetTy.tU32 (Value.vU32 n)) ∧
    (∀ n : Nat, n < 2 ^ 64 → RoundTrips TargetTy.tU64 (Value.vU64 n)) ∧
    (∀ i : Int, -(2 ^ 7) ≤ i → i < 2 ^ 7 →
      RoundTrips TargetTy.tI8 (Value.vI8 i)) ∧
    (∀ i : Int, -(2 ^ 15) ≤ i → i < 2 ^ 15 →
      RoundTrips TargetTy.tI16 (Value.vI16 i)) ∧
    (∀ i : Int, -(2 ^ 31) ≤ i → i < 2 ^ 31 →
      RoundTrips TargetTy.tI32 (Value.vI32 i)) ∧
    (∀ i : Int, -(2 ^ 63) ≤ i → i < 2 ^ 63 →
      RoundTrips TargetTy.tI64 (Value.vI64 i)) ∧
    (∀ x : RFloat, x ≠ RFloat.nan →
      ∃ s x2, to_string (Value.vF32 x) = Except.ok s ∧
        from_str TargetTy.tF32 s = Except.ok (Value.vF32 x2) ∧
        rfEq x2 x = true) ∧
    (∀ x : RFloat, x ≠ RFloat.nan →
      ∃ s x2, to_string (Value.vF64 x) = Except.ok s ∧
        from_str TargetTy.tF64 s = Except.ok (Value.vF64 x2) ∧
        rfEq x2 x = true) := by
  refine ⟨roundtrip_bool, roundtrip_u8, roundtrip_u16, roundtrip_u32,
    roundtrip_u64, roundtrip_i8, roundtrip_i16, roundtrip_i32, roundtrip_i64,
    ?_, ?_⟩
  · intro x hx
    exact ⟨rustDisplayRFloat x, x, rfl, from_str_tF32_display x hx,
      rfEq_refl_of_ne_nan x hx⟩
  · intro x hx
    exact ⟨rustDisplayRFloat x, x, rfl, from_str_tF64_display x hx,
      rfEq_refl_of_ne_nan x hx⟩

theorem c3_numeric_roundtrip_witness :
    RoundTrips TargetTy.tBool (Value.vBool true) ∧
    ((42 : Nat) < 2 ^ 8 ∧ RoundTrips TargetTy.tU8 (Value.vU8 42)) ∧
    ((1000 : Nat) < 2 ^ 16 ∧ RoundTrips TargetTy.tU16 (Value.vU16 1000)) ∧
    ((70000 : Nat) < 2 ^ 32 ∧ RoundTrips TargetTy.tU32 (Value.vU32 70000)) ∧
    ((5000000000 : Nat) < 2 ^ 64 ∧
      RoundTrips TargetTy.tU64 (Value.vU64 5000000000)) ∧
    (-(2 ^ 7) ≤ (-7 : Int) ∧ (-7 : Int) < 2 ^ 7 ∧
      RoundTrips TargetTy.tI8 (Value.vI8 (-7))) ∧
    (-(2 ^ 15) ≤ (-300 : Int) ∧ (-300 : Int) < 2 ^ 15 ∧
      RoundTrips TargetTy.tI16 (Value.vI16 (-300))) ∧
    (-(2 ^ 31) ≤ (123456 : Int) ∧ (123456 : Int) < 2 ^ 31 ∧
      RoundTrips TargetTy.tI32 (Value.vI32 123456)) ∧
    (-(2 ^ 63) ≤ (0 : Int) ∧ (0 : Int) < 2 ^ 63 ∧
      RoundTrips TargetTy.tI64 (Value.vI64 0)) ∧
    (RFloat.finite 1 1 ≠ RFloat.nan ∧
      ∃ s x2, to_string (Value.vF32 (RFloat.finite 1 1)) = Except.ok s ∧
        from_str TargetTy.tF32 s = Except.ok (Value.vF32 x2) ∧
        rfEq x2 (RFloat.finite 1 1) = true) ∧
    (RFloat.finite (-3) 2 ≠ RFloat.nan ∧
      ∃ s x2, to_string (Value.vF64 (RFloat.finite (-3) 2)) = Except.ok s ∧
        from_str TargetTy.tF64 s = Except.ok (Value.vF64 x2) ∧
        rfEq x2 (RFloat.finite (-3) 2) = true) :=
  ⟨c3_numeric_roundtrip.1 true,
    ⟨by decide, c3_numeric_roundtrip.2.1 42 (by decide)⟩,
    ⟨by decide, c3_numeric_roundtrip.2.2.1 1000 (by decide)⟩,
    ⟨by decide, c3_numeric_roundtrip.2.2.2.1 70000 (by decide)⟩,
    ⟨by decide, c3_numeric_roundtrip.2.2.2.2.1 5000000000 (by decide)⟩,
    ⟨by decide, by decide,
      c3_numeric_roundtrip.2.2.2.2.2.1 (-7) (by decide) (by decide)⟩,
    ⟨by decide, by decide,
      c3_numeric_roundtrip.2.2.2.2.2.2.1 (-300) (by decide) (by decide)⟩,
    ⟨by decide, by decide,
      c3_numeric_roundtrip.2.2.2.2.2.2.2.1 123456 (by decide) (by decide)⟩,
    ⟨by decide, by decide,
      c3_numeric_roundtrip.2.2.2.2.2.2.2.2.1 0 (by decide) (by decide)⟩,
    ⟨by decide,
      c3_numeric_roundtrip.2.2.2.2.2.2.2.2.2.1 (RFloat.finite 1 1) (by decide)⟩,
    ⟨by decide,
      c3_numeric_roundtrip.2.2.2.2.2.2.2.2.2.2 (RFloat.finite (-3) 2) (by decide)⟩⟩

/-- C4: deserializing a string that matches no variant name of a unit-variant
enum fails with exactly the contractual message `unknown variant <input>,
expected ...` listing the serialization names in declaration order (one name
alone; two joined by `or`; more than two comma-joined with a final `or`); in
particular for the 2-variant enum `{FooBarBaz, BlahBlah}` with no renaming,
`from_str("whatever")` fails with exactly the message pinned by
`tests/test_macros.rs`. -/
theorem c4_unknown_variant_message (enumName : Str) (names : List Str)
    (s : Str) (h : s ∉ names) :
    from_str (TargetTy.tEnum enumName names) s
      = Except.error (Error.Message (unknown_variant_msg s names)) ∧
    from_str (TargetTy.tEnum "Test3".data ["FooBarBaz".data, "BlahBlah".data])
        "whatever".data
      = Except.error (Error.Message
          "unknown variant `whatever`, expected `FooBarBaz` or `BlahBlah`".data) := by
  refine ⟨?_, rfl⟩
  simp only [from_str, findVariant_eq_none names s h]

theorem c4_unknown_variant_message_witness :
    "whatever".data ∉ ["FooBarBaz".data, "BlahBlah".data] ∧
    from_str (TargetTy.tEnum "Test3".data ["FooBarBaz".data, "BlahBlah".data])
        "whatever".data
      = Except.error (Error.Message
          (unknown_variant_msg "whatever".data
            ["FooBarBaz".data, "BlahBlah".data])) :=
  ⟨by decide,
    (c4_unknown_variant_message "Test3".data ["FooBarBaz".data, "BlahBlah".data]
      "whatever".data (by decide)).1⟩

/-- C5: `to_string(&())` returns `Ok("")` (`serialize_unit`),
`to_string(&None)` returns `Ok("")` (`serialize_none`), and for every
serializable value `x`, `to_string(&Some(x))` equals `to_string(&x)`
(`serialize_some` forwards to the wrapped value), all in `src/ser.rs`. -/
theorem c5_unit_none_some (x : Value) :
    to_string Value.vUnit = Except.ok "".data ∧
    to_string Value.vNone = Except.ok "".data ∧
    to_string (Value.vSome x) = to_string x :=
  ⟨rfl, rfl, rfl⟩

/-- C6: `from_str::<()>("")` succeeds with `()`, `from_str::<Option<()>>("")`
succeeds with `None`, `from_str::<Option<String>>("42")` succeeds with
`Some("42")`, and in general any non-empty input to an optional target is
deserialized as the present value. -/
theorem c6_empty_string_semantics (t : TargetTy) (s : Str) (hs : s ≠ []) :
    from_str TargetTy.tUnit "".data = Except.ok Value.vUnit ∧
    from_str (TargetTy.tOption TargetTy.tUnit) "".data = Except.ok Value.vNone ∧
    from_str (TargetTy.tOption TargetTy.tStr) "42".data
      = Except.ok (Value.vSome (Value.vStr "42".data)) ∧
    from_str (TargetTy.tOption t) s = (from_str t s).map Value.vSome := by
  refine ⟨rfl, rfl, rfl, ?_⟩
  rw [from_str, if_neg hs]

theorem c6_empty_string_semantics_witness :
    "42".data ≠ ([] : Str) ∧
    from_str (TargetTy.tOption TargetTy.tStr) "42".data
      = (from_str TargetTy.tStr "42".data).map Value.vSome :=
  ⟨by decide, (c6_empty_string_semantics TargetTy.tStr "42".data (by decide)).2.2.2⟩

/-- C7: newtype wrappers are transparent on both sides: serialization
(`serialize_newtype_struct` in `src/ser.rs`) forwards to the wrapped value
and the spec-modelled deserialization wraps the result of deserializing the
same string at the inner type; concretely `to_string(&NewInt(42)) == Ok("42")`
and `from_str::<NewInt>("42") == Ok(NewInt(42))`. -/
theorem c7_newtype_transparency (name : Str) (t : TargetTy) (v : Value) (s : Str) :
    to_string (Value.vNewtypeStruct name v) = to_string v ∧
    from_str (TargetTy.tNewtype name t) s
      = (from_str t s).map (Value.vNewtypeStruct name) ∧
    to_string (Value.vNewtypeStruct "NewInt".data (Value.vI32 42))
      = Except.ok "42".data ∧
    from_str (TargetTy.tNewtype "NewInt".data TargetTy.tI32) "42".data
      = Except.ok (Value.vNewtypeStruct "NewInt".data (Value.vI32 42)) :=
  ⟨rfl, rfl, rfl, rfl⟩

/-- C8: the `Display` rendering of every value of the public `Error` type —
`ImpossibleSerialization` as well as every `Message(s)` — begins with the
prefix `plain serialization error: ` (the `fmt::Display` impl of
`src/error.rs` writes the prefix followed by the description). -/
theorem c8_error_display_has_prefix (e : Error) :
    ∃ rest, Error.display e = "plain serialization error: ".data ++ rest :=
  ⟨e.description, rfl⟩

/-- C9: every failure of `to_string` and `from_str` is returned as an `Err`
value of the total functions of the embedding, never as abnormal
termination, and the derive-generated render-to-string path
(`forward_display_to_serde` / `SerializeDisplay`) panics exactly when
`to_string` of the value returns an error: it writes the serialized string
on success and hits `unwrap()` of an error otherwise. -/
theorem c9_failures_are_results :
    (∀ v : Value, (∃ s, to_string v = Except.ok s) ∨
      (∃ e, to_string v = Except.error e)) ∧
    (∀ (t : TargetTy) (s : Str), (∃ v, from_str t s = Except.ok v) ∨
      (∃ e, from_str t s = Except.error e)) ∧
    (∀ (v : Value) (s : Str), to_string v = Except.ok s →
      displayViaSerde v = some s) ∧
    (∀ (v : Value) (e : Error), to_string v = Except.error e →
      displayViaSerde v = none) := by
  refine ⟨?_, ?_, ?_, ?_⟩
  · intro v
    cases h : to_string v with
    | ok s => exact Or.inl ⟨s, rfl⟩
    | error e => exact Or.inr ⟨e, rfl⟩
  · intro t s
    cases h : from_str t s with
    | ok v => exact Or.inl ⟨v, rfl⟩
    | error e => exact Or.inr ⟨e, rfl⟩
  · intro v s h
    rw [displayViaSerde, h]
    rfl
  · intro v e h
    rw [displayViaSerde, h]
    rfl

theorem c9_failures_are_results_witness :
    to_string Value.vUnit = Except.ok "".data ∧
    displayViaSerde Value.vUnit = some "".data ∧
    to_string (Value.vSeq []) = Except.error Error.ImpossibleSerialization ∧
    displayViaSerde (Value.vSeq []) = none :=
  ⟨rfl, c9_failures_are_results.2.2.1 Value.vUnit "".data rfl, rfl,
    c9_failures_are_results.2.2.2 (Value.vSeq []) Error.ImpossibleSerialization rfl⟩

/-- C10: `get_ident` of `serde-plain-derive/src/lib.rs` returns no identifier
(modelling a panic through `unwrap()` of `None`) on every input whose text
contains neither the substring `" pub enum"` nor the substring `" enum"`,
such as a struct declaration or an enum declaration with nothing before the
`enum` keyword. -/
theorem c10_get_ident_none (input : Str)
    (h1 : containsSubstr input " pub enum".data = false)
    (h2 : containsSubstr input " enum".data = false) :
    get_ident input = none := by
  have e1 : findSubstr input " pub enum".data = none := by
    cases hf : findSubstr input " pub enum".data with
    | none => rfl
    | some i =>
      rw [containsSubstr, hf] at h1
      simp at h1
  have e2 : findSubstr input " enum".data = none := by
    cases hf : findSubstr input " enum".data with
    | none => rfl
    | some i =>
      rw [containsSubstr, hf] at h2
      simp at h2
  simp only [get_ident, e1, e2]

theorem c10_get_ident_none_witness :
    containsSubstr "enum Foo".data " pub enum".data = false ∧
    containsSubstr "enum Foo".data " enum".data = false ∧
    get_ident "enum Foo".data = none :=
  ⟨by decide, by decide, c10_get_ident_none "enum Foo".data (by decide) (by decide)⟩
